import Mathlib

/-!
Shallow embedding of `pymatgen/analysis/ferroelectricity/polarization.py`.

Real numbers of the source are modelled by `ℚ` (exact arithmetic; the
claims' "up to floating tolerance" becomes exact equality).  A crystal
lattice is modelled by its three basis row vectors together with the
derived scalar lengths `a`, `b`, `c` and the cell volume; since norms of
rational vectors are in general irrational, the lengths are carried as
fields constrained by the validity predicate `CLattice.valid`
(`a * a = va ⬝ va`, etc.), exactly the data pymatgen's `Lattice` exposes.

The nearest-periodic-image query `Structure.get_nearest_site` used by the
branch-matching algorithm lives in `pymatgen/core/structure.py`, which is
not part of the sources here.  `nearestImage` below is modelled from the
spec: among the periodic images `f + n`, `n` an integer vector, of the
fractional point `f`, pick the one whose real-space Cartesian position is
closest (Euclidean distance) to the reference point, ties broken by the
enumeration order of the search.  The fractional point is first folded
into the unit cell (`Int.fract` per component, as pymatgen's
`get_points_in_sphere` does) and the integer offsets range over the
window `[-1, 1]` per direction, which contains the true minimizer over all
of `ℤ^3` in every concrete instance appearing in this development.
-/

/-- A 3-vector of exact rationals (models a numpy length-3 float array). -/
structure Vec3 where
  x : ℚ
  y : ℚ
  z : ℚ
deriving DecidableEq, Repr

/-- The zero 3-vector. -/
def v0 : Vec3 := ⟨0, 0, 0⟩

/-- Componentwise addition. -/
def addv (u v : Vec3) : Vec3 := ⟨u.x + v.x, u.y + v.y, u.z + v.z⟩

/-- Componentwise subtraction. -/
def subv (u v : Vec3) : Vec3 := ⟨u.x - v.x, u.y - v.y, u.z - v.z⟩

/-- Componentwise multiplication (numpy `np.multiply`). -/
def mulv (u v : Vec3) : Vec3 := ⟨u.x * v.x, u.y * v.y, u.z * v.z⟩

/-- Componentwise division (numpy `np.divide`). -/
def divv (u v : Vec3) : Vec3 := ⟨u.x / v.x, u.y / v.y, u.z / v.z⟩

/-- Scalar multiple of a 3-vector. -/
def smulv (q : ℚ) (v : Vec3) : Vec3 := ⟨q * v.x, q * v.y, q * v.z⟩

/-- Euclidean inner product of two 3-vectors. -/
def dotv (u v : Vec3) : ℚ := u.x * v.x + u.y * v.y + u.z * v.z

/-- Component of a 3-vector along lattice direction `d` (0 ↦ a, 1 ↦ b, 2 ↦ c). -/
def comp (d : Fin 3) (v : Vec3) : ℚ :=
  match d with
  | 0 => v.x
  | 1 => v.y
  | 2 => v.z

theorem Vec3.ext' {u v : Vec3} (hx : u.x = v.x) (hy : u.y = v.y) (hz : u.z = v.z) : u = v := by
  cases u; cases v; simp_all

/-- A crystal lattice: three real-space basis row vectors `va vb vc`
(pymatgen `Lattice.matrix`), the derived lengths `a b c` and cell volume
`vol` (pymatgen `Lattice.a/b/c/volume`).  Because square roots leave `ℚ`,
the derived scalars are fields tied to the vectors by `CLattice.valid`. -/
structure CLattice where
  va : Vec3
  vb : Vec3
  vc : Vec3
  a : ℚ
  b : ℚ
  c : ℚ
  vol : ℚ
deriving DecidableEq, Repr

/-- Determinant of the 3×3 matrix with rows `u`, `v`, `w` (signed cell volume). -/
def det3 (u v w : Vec3) : ℚ :=
  u.x * (v.y * w.z - v.z * w.y) - u.y * (v.x * w.z - v.z * w.x) + u.z * (v.x * w.y - v.y * w.x)

/-- Well-formedness of the lattice data: the stored lengths are the (positive)
norms of the basis vectors and the stored volume is the (positive) absolute
determinant of the basis. -/
def CLattice.valid (l : CLattice) : Prop :=
  0 < l.a ∧ l.a * l.a = dotv l.va l.va ∧
  0 < l.b ∧ l.b * l.b = dotv l.vb l.vb ∧
  0 < l.c ∧ l.c * l.c = dotv l.vc l.vc ∧
  0 < l.vol ∧ l.vol * l.vol = det3 l.va l.vb l.vc * det3 l.va l.vb l.vc

instance (l : CLattice) : Decidable l.valid := by
  unfold CLattice.valid; infer_instance

/-- The triple of lattice lengths `(l.a, l.b, l.c)` as a `Vec3`
(pymatgen `lattice.lengths_and_angles[0]`). -/
def latLens (l : CLattice) : Vec3 := ⟨l.a, l.b, l.c⟩

/-- Cartesian position of the fractional point `f` in lattice `l`:
`f.x • va + f.y • vb + f.z • vc`. -/
def cartL (l : CLattice) (f : Vec3) : Vec3 :=
  addv (addv (smulv f.x l.va) (smulv f.y l.vb)) (smulv f.z l.vc)

/-- Squared Euclidean distance between two Cartesian points. -/
def dist2 (p r : Vec3) : ℚ := dotv (subv p r) (subv p r)

/-- Models `Lattice.from_lengths_and_angles(np.array(lengths) * u, angles)`
followed by re-reading the derived lengths: the rebuilt lattice has the same
angles and lengths `|u| * a`, `|u| * b`, `|u| * c` (a length is a norm, so a
negative scale factor `u` — the converted units factor is negative — enters
through its absolute value), hence basis vectors scaled by `|u|` up to an
overall rotation, and volume scaled by `|u|^3`. -/
def rescaleLat (u : ℚ) (l : CLattice) : CLattice :=
  ⟨smulv |u| l.va, smulv |u| l.vb, smulv |u| l.vc,
    |u| * l.a, |u| * l.b, |u| * l.c, |u| * |u| * |u| * l.vol⟩

/-- Componentwise fractional part: folds a fractional coordinate into the
unit cell `[0,1)` per direction. -/
def fract3 (v : Vec3) : Vec3 := ⟨Int.fract v.x, Int.fract v.y, Int.fract v.z⟩

/-- An integer translation vector (a periodic image offset). -/
abbrev IVec := ℤ × ℤ × ℤ

/-- The zero image offset. -/
def iv0 : IVec := (0, 0, 0)

/-- Integer offsets searched per direction when looking for the nearest
periodic image. -/
def window : List ℤ := [-1, 0, 1]

/-- All image offsets searched by the nearest-image query. -/
def candidates : List IVec :=
  window.flatMap fun i => window.flatMap fun j => window.map fun k => (i, j, k)

/-- Translate a fractional point by an integer image offset. -/
def addIV (f : Vec3) (n : IVec) : Vec3 := ⟨f.x + n.1, f.y + n.2.1, f.z + n.2.2⟩

/-- Squared real-space distance from the periodic image `f0 + n` to the
reference point `ref`. -/
def imageKey (l : CLattice) (ref f0 : Vec3) (n : IVec) : ℚ :=
  dist2 (cartL l (addIV f0 n)) ref

/-- First-wins argmin of `key` over a list, seeded with `b`. -/
def argminKey (key : IVec → ℚ) : IVec → List IVec → IVec
  | b, [] => b
  | b, n :: ns => argminKey key (if key n < key b then n else b) ns

/-- Modelled from the spec: the nearest-periodic-image query
(`Structure.get_nearest_site`, not among the given sources) returns, among
all periodic images of the fractional point `f`, the one minimizing the
real-space Euclidean distance to `ref`; the point is first folded into the
unit cell and the integer offsets are enumerated over a fixed window. -/
def nearestImage (l : CLattice) (ref f : Vec3) : Vec3 :=
  addIV (fract3 f) (argminKey (imageKey l ref (fract3 f)) iv0 candidates)

/-- One step of the same-branch reconstruction works on
(lattice, lattice lengths, fractional polarization) triples. -/
abbrev StepD := CLattice × Vec3 × Vec3

/-- Sequential branch matching: for each step, choose the periodic image of
the step's fractional polarization nearest to the previous step's chosen
Cartesian position (the origin for the first step is supplied by the
caller), emit `frac_coords * lengths`, and pass the chosen Cartesian
position on. -/
def branchRec : Vec3 → List StepD → List Vec3
  | _, [] => []
  | prev, s :: rest =>
    mulv (nearestImage s.1 prev s.2.2) s.2.1 ::
      branchRec (cartL s.1 (nearestImage s.1 prev s.2.2)) rest

/-- A periodic site: fractional coordinates in its host lattice plus the
species symbol (pymatgen `PeriodicSite`, consumed read-only). -/
structure PSite where
  frac : Vec3
  specie : String
deriving DecidableEq, Repr

/-- A structure: one lattice plus an ordered list of sites
(pymatgen `Structure`, consumed read-only). -/
structure PStructure where
  lattice : CLattice
  sites : List PSite
deriving DecidableEq, Repr

/-- Unit-cube default structure used only as a `List.getD` fallback. -/
def dStruct : PStructure :=
  ⟨⟨⟨1, 0, 0⟩, ⟨0, 1, 0⟩, ⟨0, 0, 1⟩, 1, 1, 1, 1⟩, []⟩

/-- `calc_ionic(site, structure, zval)`: the site's ionic dipole contribution,
`np.multiply(norms, -site.frac_coords * zval)` with `norms` the lattice
lengths. -/
def calc_ionic (site : PSite) (struct : PStructure) (zval : ℚ) : Vec3 :=
  mulv (latLens struct.lattice) (smulv zval ⟨-site.frac.x, -site.frac.y, -site.frac.z⟩)

/-- Sum of a list of 3-vectors (`np.sum(tot_ionic, axis=0)`; the empty case,
where numpy collapses to the scalar `0.0`, is rendered as the zero vector). -/
def vecSum (l : List Vec3) : Vec3 := l.foldl addv v0

/-- The per-site loop of `get_total_ionic_dipole`: look up each site's ZVAL
by its species symbol and collect `calc_ionic` values; a missing species
is the `KeyError` of `zval_dict[str(site.specie)]`, rendered as `none`. -/
def collectIonic (struct : PStructure) (zval_dict : List (String × ℚ)) :
    List PSite → Option (List Vec3)
  | [] => some []
  | s :: rest =>
    match zval_dict.lookup s.specie with
    | none => none
    | some z => (collectIonic struct zval_dict rest).map (calc_ionic s struct z :: ·)

/-- `get_total_ionic_dipole(structure, zval_dict)`: total ionic dipole of a
structure; `none` models the `KeyError` raised when a species present in the
structure is absent from `zval_dict`. -/
def get_total_ionic_dipole (struct : PStructure) (zval_dict : List (String × ℚ)) :
    Option Vec3 :=
  (collectIonic struct zval_dict struct.sites).map vecSum

/-- The `Polarization` analyzer's stored state: the three sequences assigned
in `__init__` (`self.p_elecs`, `self.p_ions`, `self.structures`). -/
structure Polarization where
  p_elecs : List Vec3
  p_ions : List Vec3
  structures : List PStructure
deriving DecidableEq, Repr

/-- `Polarization.__init__`: raises `ValueError` unless the three sequences
have equal length; otherwise stores them as given. -/
def mkPolarization (p_elecs p_ions : List Vec3) (structures : List PStructure) :
    Except String Polarization :=
  if p_elecs.length ≠ p_ions.length ∨ p_elecs.length ≠ structures.length then
    Except.error "The number of electronic polarization and ionic polarization values must be equal."
  else
    Except.ok ⟨p_elecs, p_ions, structures⟩

/-- Number of steps of the track (`L = len(p_elec)`). -/
def Polarization.L (T : Polarization) : ℕ := T.p_elecs.length

/-- Well-formedness of a track: the construction-time length invariant plus
validity of every structure's lattice data. -/
def validTrack (T : Polarization) : Prop :=
  T.p_elecs.length = T.p_ions.length ∧
  T.p_elecs.length = T.structures.length ∧
  ∀ s ∈ T.structures, s.lattice.valid

instance (T : Polarization) : Decidable (validTrack T) := by
  unfold validTrack; infer_instance

/-- `e_to_muC = -1.6021766e-13` (microcoulomb per electron). -/
def e_to_muC : ℚ := -16021766 / 10 ^ 20

/-- `cm2_to_A2 = 1e16` (square Ångström per square centimeter). -/
def cm2_to_A2 : ℚ := 10 ^ 16

/-- The per-structure unit conversion factor
`units[i] = (1 / volume[i]) * e_to_muC * cm2_to_A2`. -/
def unitScale (vol : ℚ) : ℚ := 1 / vol * (e_to_muC * cm2_to_A2)

/-- Structure at step `i` of the track. -/
def stepStruct (T : Polarization) (i : ℕ) : PStructure := T.structures.getD i dStruct

/-- Raw total dipole of step `i`: `p_elec[i] + p_ion[i]` in electron·Å. -/
def ptotRaw (T : Polarization) (i : ℕ) : Vec3 :=
  addv (T.p_elecs.getD i v0) (T.p_ions.getD i v0)

/-- `Polarization.get_pelecs_and_pions(convert_to_muC_per_cm2)`: the stored
dipole sequences, each row multiplied by its structure's `units` factor when
conversion is requested, returned unchanged otherwise. -/
def Polarization.get_pelecs_and_pions (T : Polarization) (convert : Bool) :
    List Vec3 × List Vec3 :=
  if convert then
    (List.zipWith (fun s p => smulv (unitScale s.lattice.vol) p) T.structures T.p_elecs,
     List.zipWith (fun s p => smulv (unitScale s.lattice.vol) p) T.structures T.p_ions)
  else
    (T.p_elecs, T.p_ions)

/-- Lattice used at step `i` of `get_same_branch_polarization_data`: the
structure's own lattice, rebuilt from rescaled lengths when conversion is
requested (`Lattice.from_lengths_and_angles(np.array(l) * units.A1[i], a)`). -/
def stepLat (T : Polarization) (convert : Bool) (i : ℕ) : CLattice :=
  if convert then
    rescaleLat (unitScale (stepStruct T i).lattice.vol) (stepStruct T i).lattice
  else
    (stepStruct T i).lattice

/-- Lattice lengths at step `i`, in the requested units. -/
def stepLens (T : Polarization) (convert : Bool) (i : ℕ) : Vec3 :=
  latLens (stepLat T convert i)

/-- Total dipole at step `i`, converted when requested
(`p_tot = np.multiply(units.T, p_tot)`). -/
def stepPt (T : Polarization) (convert : Bool) (i : ℕ) : Vec3 :=
  if convert then
    smulv (unitScale (stepStruct T i).lattice.vol) (ptotRaw T i)
  else
    ptotRaw T i

/-- Pseudo-fractional polarization at step `i`:
`frac_coord = np.divide(p_tot[i], [l.a, l.b, l.c])`. -/
def stepF (T : Polarization) (convert : Bool) (i : ℕ) : Vec3 :=
  divv (stepPt T convert i) (stepLens T convert i)

/-- The (lattice, lengths, fractional polarization) triple fed to the
branch-matching loop at step `i`. -/
def stepData (T : Polarization) (convert : Bool) (i : ℕ) : StepD :=
  (stepLat T convert i, stepLens T convert i, stepF T convert i)

/-- `Polarization.get_same_branch_polarization_data(convert_to_muC_per_cm2)`:
run the branch-matching loop over all steps, starting from the origin
reference `[0, 0, 0]` for the first (nonpolar) step. -/
def Polarization.get_same_branch_polarization_data (T : Polarization) (convert : Bool) :
    List Vec3 :=
  branchRec v0 ((List.range T.L).map (stepData T convert))

/-- `Polarization.get_lattice_quanta(convert_to_muC_per_cm2)`: the lattice
lengths of every structure, after the same per-structure rescaling of the
lattice as in the branch-matching method when conversion is requested. -/
def Polarization.get_lattice_quanta (T : Polarization) (convert : Bool) : List Vec3 :=
  T.structures.map fun s =>
    latLens (if convert then rescaleLat (unitScale s.lattice.vol) s.lattice else s.lattice)

/-- `Polarization.get_polarization_change()`: last minus first row of the
converted same-branch data. -/
def Polarization.get_polarization_change (T : Polarization) : Vec3 :=
  subv ((T.get_same_branch_polarization_data true).getD
          ((T.get_same_branch_polarization_data true).length - 1) v0)
       ((T.get_same_branch_polarization_data true).getD 0 v0)

/-- Square of `Polarization.get_polarization_change_norm()`: the source
projects the change onto the polar structure's normalized basis vectors and
takes the Euclidean norm; the square root leaves `ℚ`, so the squared norm is
returned (the normalized vector `row / ‖row‖` is `row / length` by lattice
validity). -/
def Polarization.get_polarization_change_norm_sq (T : Polarization) : ℚ :=
  dotv
    (addv (addv
      (smulv ((T.get_polarization_change).x / (stepStruct T (T.structures.length - 1)).lattice.a)
        (stepStruct T (T.structures.length - 1)).lattice.va)
      (smulv ((T.get_polarization_change).y / (stepStruct T (T.structures.length - 1)).lattice.b)
        (stepStruct T (T.structures.length - 1)).lattice.vb))
      (smulv ((T.get_polarization_change).z / (stepStruct T (T.structures.length - 1)).lattice.c)
        (stepStruct T (T.structures.length - 1)).lattice.vc))
    (addv (addv
      (smulv ((T.get_polarization_change).x / (stepStruct T (T.structures.length - 1)).lattice.a)
        (stepStruct T (T.structures.length - 1)).lattice.va)
      (smulv ((T.get_polarization_change).y / (stepStruct T (T.structures.length - 1)).lattice.b)
        (stepStruct T (T.structures.length - 1)).lattice.vb))
      (smulv ((T.get_polarization_change).z / (stepStruct T (T.structures.length - 1)).lattice.c)
        (stepStruct T (T.structures.length - 1)).lattice.vc))

/-- A fitted 1-D spline, abstracted to its evaluations at integer steps. -/
def SplineFun := ℕ → ℚ

/-- The external spline-fitting primitive (`scipy UnivariateSpline` wrapped
in the source's per-component `try/except`): fed the sampled values, it
either yields a fitted spline or fails (`none`). -/
def SplineFit := List ℚ → Option SplineFun

/-- Column `k` of the converted same-branch polarization matrix
(`tot[:, k].A1`). -/
def sbCol (T : Polarization) (k : Fin 3) : List ℚ :=
  (T.get_same_branch_polarization_data true).map (comp k)

/-- `Polarization.same_branch_splines()`: three independent per-direction
spline fits of the converted same-branch data, each wrapped in its own
`try/except` (the triple `(sp_a, sp_b, sp_c)` is rendered as a function on
directions). -/
def Polarization.same_branch_splines (fit : SplineFit) (T : Polarization) :
    Fin 3 → Option SplineFun :=
  fun k => fit (sbCol T k)

/-- `max` of a list of rationals (Python's `max`; the empty case, where
Python raises, is rendered as `0`). -/
def maxOf : List ℚ → ℚ
  | [] => 0
  | q :: qs => qs.foldl max q

/-- The list `ys - sp(range(len(ys)))` of deviations of the data from the
spline prediction. -/
def jumpList (sp : SplineFun) (ys : List ℚ) : List ℚ :=
  (List.range ys.length).map fun j => ys.getD j 0 - sp j

/-- `Polarization.max_spline_jumps()`: per direction, the maximum deviation
of the same-branch data from its spline fit, only for directions whose fit
succeeded (`max_jumps[i]` stays `None` when `sps[i]` is `None`). -/
def Polarization.max_spline_jumps (fit : SplineFit) (T : Polarization) :
    Fin 3 → Option ℚ :=
  fun k => (T.same_branch_splines fit k).map fun sp => maxOf (jumpList sp (sbCol T k))

/-- Mean squared deviation of data `ys` from spline `sp`
(`np.sum(np.square(diff)) / L`); the source then takes a square root, which
leaves `ℚ`, so the squared RMS is carried (the square root is monotone and
fixes `0`, so availability and non-negativity are unaffected). -/
def meanSqDev (sp : SplineFun) (ys : List ℚ) : ℚ :=
  (((List.range ys.length).map fun j => (sp j - ys.getD j 0) ^ 2).sum) / ys.length

/-- Squared-RMS version of `Polarization.smoothness()`: per-direction RMS
deviation of the converted same-branch data from its spline fits; if any
per-direction fit is unavailable the call fails as a whole (the source
raises an uncaught `TypeError` on `None(range(L))`), rendered as `none`. -/
def Polarization.smoothness_sq (fit : SplineFit) (T : Polarization) :
    Option (Fin 3 → ℚ) :=
  match T.same_branch_splines fit 0, T.same_branch_splines fit 1, T.same_branch_splines fit 2 with
  | some s0, some s1, some s2 =>
    some fun k => meanSqDev (match k with | 0 => s0 | 1 => s1 | 2 => s2) (sbCol T k)
  | _, _, _ => none

/-- A fitted energy spline: evaluations and first-derivative evaluations at
integer steps (`sp(x)` and `sp.derivative()(x)`). -/
structure ESpline where
  eval : ℕ → ℚ
  deriv : ℕ → ℚ

/-- The external quartic spline-fitting primitive used by `EnergyTrend`
(`UnivariateSpline(range(L), energies, k=4)`): may raise, modelled by
`Except`. -/
def EFit := List ℚ → Except String ESpline

/-- The `EnergyTrend` analyzer's stored state: the energies sequence
assigned in `__init__` with no validation. -/
structure EnergyTrend where
  energies : List ℚ
deriving DecidableEq, Repr

/-- `EnergyTrend.spline()`: fit the quartic spline to the stored energies;
a fitting failure propagates (no `try/except` here). -/
def EnergyTrend.spline (efit : EFit) (et : EnergyTrend) : Except String ESpline :=
  efit et.energies

/-- Squared-RMS version of `EnergyTrend.smoothness()`: RMS deviation of the
energies from the spline fit; a fitting failure is caught (`except: print(...);
return None`), rendered as `none` rather than a propagated error. -/
def EnergyTrend.smoothness_sq (efit : EFit) (et : EnergyTrend) : Option ℚ :=
  match et.spline efit with
  | Except.error _ => none
  | Except.ok sp => some (meanSqDev sp.eval et.energies)

/-- `EnergyTrend.max_spline_jump()`: maximum deviation of the energies from
the spline fit; a fitting failure propagates (no `try/except` here). -/
def EnergyTrend.max_spline_jump (efit : EFit) (et : EnergyTrend) : Except String ℚ :=
  (et.spline efit).map fun sp => maxOf (jumpList sp.eval et.energies)

/-- `EnergyTrend.endpoints_minima(slope_cutoff)`: whether the spline's first
derivative at the last / first step is within the cutoff; a fitting failure
is caught and reported as `none`. -/
def EnergyTrend.endpoints_minima (efit : EFit) (et : EnergyTrend) (slope_cutoff : ℚ) :
    Option (Bool × Bool) :=
  match et.spline efit with
  | Except.error _ => none
  | Except.ok sp =>
    some (decide (|sp.deriv (et.energies.length - 1)| ≤ slope_cutoff),
          decide (|sp.deriv 0| ≤ slope_cutoff))

/-!
State-passing renderings of every public method, used to express the
frame-effect claim.  Each `..._run` function is the translation of the
method body threading the instance state explicitly; the returned state is
the input state because the source assigns to `self` attributes only in
`__init__` and in no method.
-/

/-- State-passing `Polarization.get_pelecs_and_pions`. -/
def Polarization.get_pelecs_and_pions_run (convert : Bool) (T : Polarization) :
    (List Vec3 × List Vec3) × Polarization :=
  (T.get_pelecs_and_pions convert, T)

/-- State-passing `Polarization.get_same_branch_polarization_data`. -/
def Polarization.get_same_branch_polarization_data_run (convert : Bool) (T : Polarization) :
    List Vec3 × Polarization :=
  (T.get_same_branch_polarization_data convert, T)

/-- State-passing `Polarization.get_lattice_quanta`. -/
def Polarization.get_lattice_quanta_run (convert : Bool) (T : Polarization) :
    List Vec3 × Polarization :=
  (T.get_lattice_quanta convert, T)

/-- State-passing `Polarization.get_polarization_change`. -/
def Polarization.get_polarization_change_run (T : Polarization) : Vec3 × Polarization :=
  (T.get_polarization_change, T)

/-- State-passing `Polarization.get_polarization_change_norm` (squared). -/
def Polarization.get_polarization_change_norm_sq_run (T : Polarization) : ℚ × Polarization :=
  (T.get_polarization_change_norm_sq, T)

/-- State-passing `Polarization.same_branch_splines`. -/
def Polarization.same_branch_splines_run (fit : SplineFit) (T : Polarization) :
    (Fin 3 → Option SplineFun) × Polarization :=
  (T.same_branch_splines fit, T)

/-- State-passing `Polarization.max_spline_jumps`. -/
def Polarization.max_spline_jumps_run (fit : SplineFit) (T : Polarization) :
    (Fin 3 → Option ℚ) × Polarization :=
  (T.max_spline_jumps fit, T)

/-- State-passing `Polarization.smoothness` (squared). -/
def Polarization.smoothness_sq_run (fit : SplineFit) (T : Polarization) :
    Option (Fin 3 → ℚ) × Polarization :=
  (T.smoothness_sq fit, T)

/-- State-passing `EnergyTrend.spline`. -/
def EnergyTrend.spline_run (efit : EFit) (et : EnergyTrend) :
    Except String ESpline × EnergyTrend :=
  (et.spline efit, et)

/-- State-passing `EnergyTrend.smoothness` (squared). -/
def EnergyTrend.smoothness_sq_run (efit : EFit) (et : EnergyTrend) :
    Option ℚ × EnergyTrend :=
  (et.smoothness_sq efit, et)

/-- State-passing `EnergyTrend.max_spline_jump`. -/
def EnergyTrend.max_spline_jump_run (efit : EFit) (et : EnergyTrend) :
    Except String ℚ × EnergyTrend :=
  (et.max_spline_jump efit, et)

/-- State-passing `EnergyTrend.endpoints_minima`. -/
def EnergyTrend.endpoints_minima_run (efit : EFit) (slope_cutoff : ℚ) (et : EnergyTrend) :
    Option (Bool × Bool) × EnergyTrend :=
  (et.endpoints_minima efit slope_cutoff, et)

/-- Add `δ` to entry `j` of a list of dipole rows (other entries untouched). -/
def setAdd (l : List Vec3) (j : ℕ) (δ : Vec3) : List Vec3 :=
  l.set j (addv (l.getD j v0) δ)

/-- The per-direction lattice quantum of step `j` in raw units: one lattice
length per direction of structure `j`'s lattice. -/
def rawQuantum (T : Polarization) (j : ℕ) : Vec3 := latLens (stepStruct T j).lattice

/-- Add the integer multiple `m` of step `j`'s per-direction lattice quantum
to that step's raw electronic (`useElec = true`) or ionic dipole. -/
def quantumShift (T : Polarization) (useElec : Bool) (j : ℕ) (m : IVec) : Polarization :=
  if useElec then
    { T with p_elecs := setAdd T.p_elecs j (mulv ⟨m.1, m.2.1, m.2.2⟩ (rawQuantum T j)) }
  else
    { T with p_ions := setAdd T.p_ions j (mulv ⟨m.1, m.2.1, m.2.2⟩ (rawQuantum T j)) }

/-!
Concrete fixtures used by the counterexample and the witnesses.
-/

/-- Unit cubic lattice. -/
def latW : CLattice := ⟨⟨1, 0, 0⟩, ⟨0, 1, 0⟩, ⟨0, 0, 1⟩, 1, 1, 1, 1⟩

/-- A structure on the unit cubic lattice with no sites. -/
def structW : PStructure := ⟨latW, []⟩

/-- One-step track on the unit cubic lattice with total dipole `(1/2, 0, 0)`. -/
def trackW1 : Polarization := ⟨[⟨1/2, 0, 0⟩], [v0], [structW]⟩

/-- One-step track on the unit cubic lattice whose total dipole is exactly
one lattice quantum along direction a. -/
def trackW2 : Polarization := ⟨[⟨1, 0, 0⟩], [v0], [structW]⟩

/-- An oblique (non-orthogonal) lattice: basis rows `(1,0,0)`,
`(12/5, 7/10, 0)`, `(0,0,1)`; the second row has rational norm `5/2` and the
cell volume is `7/10`. -/
def cexLat : CLattice := ⟨⟨1, 0, 0⟩, ⟨12/5, 7/10, 0⟩, ⟨0, 0, 1⟩, 1, 5/2, 1, 7/10⟩

/-- One-step track on the oblique lattice whose raw total dipole is exactly
one lattice quantum along direction a (and `3/4` electron·Å along b). -/
def cexPol : Polarization := ⟨[⟨1, 3/4, 0⟩], [v0], [⟨cexLat, []⟩]⟩

/-- A site fixture for the ionic-dipole witness. -/
def siteW : PSite := ⟨⟨1/2, 1/4, 0⟩, "Li"⟩

/-- A structure holding the site fixture. -/
def structW4 : PStructure := ⟨latW, [siteW]⟩

/-- A ZVAL table containing the fixture's species. -/
def zdW : List (String × ℚ) := [("Li", 1)]

/-- A spline primitive that always succeeds with the zero spline. -/
def fitW : SplineFit := fun _ => some fun _ => 0

/-- An energy spline primitive that always fails. -/
def efitW : EFit := fun _ => Except.error "Energy spline failed."

/-- An energies fixture. -/
def etW : EnergyTrend := ⟨[1, 0, 1]⟩

/-- A lattice whose basis vectors are mutually orthogonal and axis-aligned
(each basis row is its length times a coordinate axis). -/
def diagBasis (l : CLattice) : Prop :=
  l.va = ⟨l.a, 0, 0⟩ ∧ l.vb = ⟨0, l.b, 0⟩ ∧ l.vc = ⟨0, 0, l.c⟩

instance (l : CLattice) : Decidable (diagBasis l) := by
  unfold diagBasis; infer_instance

/-- Two branch-matching step inputs are interchangeable when they carry the
same lattice, the same lengths, and fractional polarizations equal modulo
integer translations (equal folded parts). -/
def StepEq (s t : StepD) : Prop :=
  s.1 = t.1 ∧ s.2.1 = t.2.1 ∧ fract3 s.2.2 = fract3 t.2.2

-- ===== DEFINITIONS CONTINUE ABOVE THIS LINE; THEOREMS BELOW =====

theorem argminKey_le_init (key : IVec → ℚ) (l : List IVec) :
    ∀ b, key (argminKey key b l) ≤ key b := by
  induction l with
  | nil => intro b; exact le_refl _
  | cons n ns ih =>
    intro b
    have h1 : key (argminKey key b (n :: ns)) ≤ key (if key n < key b then n else b) := by
      simp only [argminKey]; exact ih _
    refine le_trans h1 ?_
    by_cases h : key n < key b
    · simp [h, le_of_lt h]
    · simp [h]

theorem argminKey_le_mem (key : IVec → ℚ) (l : List IVec) :
    ∀ b n, n ∈ l → key (argminKey key b l) ≤ key n := by
  induction l with
  | nil => intro b n h; cases h
  | cons m ms ih =>
    intro b n hn
    rcases List.mem_cons.mp hn with h | h
    · subst h
      refine le_trans (argminKey_le_init key ms _) ?_
      by_cases hlt : key n < key b <;> simp [hlt, le_of_not_lt]
    · exact ih _ n h

theorem argminKey_mem (key : IVec → ℚ) (l : List IVec) :
    ∀ b, argminKey key b l ∈ b :: l := by
  induction l with
  | nil => intro b; simp [argminKey]
  | cons n ns ih =>
    intro b
    have h := ih (if key n < key b then n else b)
    rcases List.mem_cons.mp h with h' | h'
    · by_cases hlt : key n < key b
      · simp only [argminKey]
        rw [h']
        simp [hlt]
      · simp only [argminKey]
        rw [h']
        simp [hlt]
    · simp only [argminKey]
      exact List.mem_cons_of_mem _ (List.mem_cons_of_mem _ h')

theorem getD_set_self {α : Type} (l : List α) (j : ℕ) (x d : α) (h : j < l.length) :
    (l.set j x).getD j d = x := by
  rw [List.getD_eq_getElem _ _ (by simpa using h)]
  exact List.getElem_set_self _

theorem getD_set_ne {α : Type} (l : List α) (i j : ℕ) (x d : α) (h : j ≠ i) :
    (l.set j x).getD i d = l.getD i d := by
  by_cases hi : i < l.length
  · rw [List.getD_eq_getElem _ _ (by simpa using hi), List.getD_eq_getElem _ _ hi]
    exact List.getElem_set_ne h _
  · rw [List.getD_eq_default _ _ (by simpa using Nat.le_of_not_lt hi),
      List.getD_eq_default _ _ (Nat.le_of_not_lt hi)]

theorem getD_mem {α : Type} (l : List α) (i : ℕ) (d : α) (h : i < l.length) :
    l.getD i d ∈ l := by
  rw [List.getD_eq_getElem _ _ h]
  exact List.getElem_mem h

theorem getD_map {α β : Type} (f : α → β) (l : List α) (i : ℕ) (da : α) (db : β)
    (h : i < l.length) : (l.map f).getD i db = f (l.getD i da) := by
  rw [List.getD_eq_getElem _ _ (by simpa using h), List.getD_eq_getElem _ _ h]
  exact List.getElem_map f

theorem getD_zipWith {α β γ : Type} (f : α → β → γ) (as : List α) (bs : List β) (i : ℕ)
    (da : α) (db : β) (dc : γ) (h1 : i < as.length) (h2 : i < bs.length) :
    (List.zipWith f as bs).getD i dc = f (as.getD i da) (bs.getD i db) := by
  rw [List.getD_eq_getElem _ _ (by simp [List.length_zipWith]; omega),
    List.getD_eq_getElem _ _ h1, List.getD_eq_getElem _ _ h2]
  exact List.getElem_zipWith

theorem getD_map_range {α : Type} (f : ℕ → α) (n i : ℕ) (d : α) (h : i < n) :
    ((List.range n).map f).getD i d = f i := by
  rw [List.getD_eq_getElem _ _ (by simpa using h)]
  simp

theorem nearestImage_congr (l : CLattice) (ref : Vec3) {f f2 : Vec3}
    (h : fract3 f = fract3 f2) : nearestImage l ref f = nearestImage l ref f2 := by
  unfold nearestImage
  rw [h]

theorem forall2_map_of_mem {α β : Type} (R : β → β → Prop) (l : List α) (f g : α → β)
    (h : ∀ i ∈ l, R (f i) (g i)) : List.Forall₂ R (l.map f) (l.map g) := by
  induction l with
  | nil => exact List.Forall₂.nil
  | cons x xs ih =>
    exact List.Forall₂.cons (h x (List.mem_cons_self x xs))
      (ih fun i hi => h i (List.mem_cons_of_mem _ hi))

theorem branchRec_congr {l1 l2 : List StepD} (h : List.Forall₂ StepEq l1 l2) :
    ∀ prev, branchRec prev l1 = branchRec prev l2 := by
  induction h with
  | nil => intro _; rfl
  | cons h1 _ ih =>
    intro prev
    obtain ⟨hlat, hlens, hf⟩ := h1
    simp only [branchRec]
    rw [hlat, hlens, nearestImage_congr _ _ hf, ih]

theorem length_branchRec : ∀ (l : List StepD) (prev : Vec3), (branchRec prev l).length = l.length := by
  intro l
  induction l with
  | nil => intro _; rfl
  | cons s rest ih => intro prev; simp [branchRec, ih]

theorem length_same_branch (T : Polarization) (convert : Bool) :
    (T.get_same_branch_polarization_data convert).length = T.L := by
  unfold Polarization.get_same_branch_polarization_data
  rw [length_branchRec]
  simp

theorem foldl_max_le_init (l : List ℚ) : ∀ a, a ≤ l.foldl max a := by
  induction l with
  | nil => intro a; exact le_refl a
  | cons q qs ih => intro a; exact le_trans (le_max_left a q) (ih (max a q))

theorem foldl_max_le_mem (l : List ℚ) : ∀ a x, x ∈ l → x ≤ l.foldl max a := by
  induction l with
  | nil => intro a x h; cases h
  | cons q qs ih =>
    intro a x hx
    rcases List.mem_cons.mp hx with h | h
    · subst h
      exact le_trans (le_max_right a x) (foldl_max_le_init qs (max a x))
    · exact ih (max a q) x h

theorem foldl_max_mem (l : List ℚ) : ∀ a, l.foldl max a = a ∨ l.foldl max a ∈ l := by
  induction l with
  | nil => intro a; exact Or.inl rfl
  | cons q qs ih =>
    intro a
    rcases ih (max a q) with h | h
    · rcases max_choice a q with hc | hc
      · exact Or.inl (by rw [List.foldl_cons, h, hc])
      · refine Or.inr ?_
        rw [List.foldl_cons, h, hc]
        exact List.mem_cons_self q qs
    · exact Or.inr (List.mem_cons_of_mem q (by rw [List.foldl_cons]; exact h))

theorem le_maxOf (l : List ℚ) (x : ℚ) (h : x ∈ l) : x ≤ maxOf l := by
  match l with
  | [] => cases h
  | q :: qs =>
    rcases List.mem_cons.mp h with h1 | h1
    · subst h1
      exact foldl_max_le_init qs x
    · exact foldl_max_le_mem qs q x h1

theorem maxOf_mem (l : List ℚ) (h : l ≠ []) : maxOf l ∈ l := by
  match l with
  | [] => exact absurd rfl h
  | q :: qs =>
    rcases foldl_max_mem qs q with h1 | h1
    · rw [maxOf, h1]
      exact List.mem_cons_self q qs
    · exact List.mem_cons_of_mem q h1

theorem collectIonic_all_some (struct : PStructure) (zd : List (String × ℚ)) :
    ∀ sites : List PSite, (∀ s ∈ sites, (zd.lookup s.specie).isSome) →
      collectIonic struct zd sites =
        some (sites.map fun s => calc_ionic s struct ((zd.lookup s.specie).getD 0)) := by
  intro sites
  induction sites with
  | nil => intro _; rfl
  | cons s rest ih =>
    intro h
    have hs : (zd.lookup s.specie).isSome := h s (List.mem_cons_self s rest)
    obtain ⟨z, hz⟩ := Option.isSome_iff_exists.mp hs
    have ht := ih fun t ht => h t (List.mem_cons_of_mem _ ht)
    simp [collectIonic, hz, ht]

theorem collectIonic_missing (struct : PStructure) (zd : List (String × ℚ)) :
    ∀ sites : List PSite, (∃ s ∈ sites, zd.lookup s.specie = none) →
      collectIonic struct zd sites = none := by
  intro sites
  induction sites with
  | nil => intro h; obtain ⟨s, hs, _⟩ := h; cases hs
  | cons s rest ih =>
    intro h
    obtain ⟨t, ht, hnone⟩ := h
    rcases List.mem_cons.mp ht with h1 | h1
    · subst h1
      simp [collectIonic, hnone]
    · by_cases hs : zd.lookup s.specie = none
      · simp [collectIonic, hs]
      · obtain ⟨z, hz⟩ := Option.ne_none_iff_exists'.mp hs
        simp [collectIonic, hz, ih ⟨t, h1, hnone⟩]

/-- C3: constructing a `Polarization` track fails with a validation error
exactly when the three input sequences do not all have the same length; for
every equal-length input (including length 1) it succeeds and stores the
sequences exactly as given, never truncating. -/
theorem polarization_init_length_invariant (pe pi : List Vec3) (st : List PStructure) :
    ((∃ T, mkPolarization pe pi st = Except.ok T) ↔
      pe.length = pi.length ∧ pe.length = st.length) ∧
    (∀ T, mkPolarization pe pi st = Except.ok T →
      T.p_elecs = pe ∧ T.p_ions = pi ∧ T.structures = st) ∧
    (pe.length ≠ pi.length ∨ pe.length ≠ st.length →
      ∃ msg, mkPolarization pe pi st = Except.error msg) := by
  by_cases h : pe.length ≠ pi.length ∨ pe.length ≠ st.length
  · refine ⟨⟨?_, ?_⟩, ?_, ?_⟩
    · intro ⟨T, hT⟩
      simp [mkPolarization, h] at hT
    · intro hc
      rcases h with h1 | h1
      · exact absurd hc.1 h1
      · exact absurd hc.2 h1
    · intro T hT
      simp [mkPolarization, h] at hT
    · intro _
      exact ⟨_, by unfold mkPolarization; rw [if_pos h]⟩
  · refine ⟨⟨?_, ?_⟩, ?_, ?_⟩
    · intro _
      push_neg at h
      exact ⟨h.1, h.2⟩
    · intro _
      exact ⟨⟨pe, pi, st⟩, by simp [mkPolarization, h]⟩
    · intro T hT
      unfold mkPolarization at hT
      rw [if_neg h] at hT
      cases hT
      exact ⟨rfl, rfl, rfl⟩
    · intro hc
      exact absurd hc h

/-- Witness for C3: a length-1 equal-length construction succeeds, and an
unequal-length construction yields a validation error. -/
theorem polarization_init_length_invariant_witness :
    (∃ T, mkPolarization [v0] [v0] [structW] = Except.ok T) ∧
    (∃ msg, mkPolarization [v0] [] [structW] = Except.error msg) :=
  ⟨(polarization_init_length_invariant [v0] [v0] [structW]).1.mpr (by decide),
   (polarization_init_length_invariant [v0] [] [structW]).2.2 (by decide)⟩

/-- C4: `calc_ionic` returns, per lattice direction, minus the lattice
length times the fractional coordinate times the ionic charge; and
`get_total_ionic_dipole` sums `calc_ionic` over all sites when every
species of the structure appears in the ZVAL table, while a species missing
from the table is a lookup error. -/
theorem calc_ionic_total_dipole_spec (site : PSite) (struct : PStructure)
    (zval : ℚ) (zd : List (String × ℚ)) (hz : 0 < zval) :
    calc_ionic site struct zval =
      ⟨-(struct.lattice.a * site.frac.x * zval),
       -(struct.lattice.b * site.frac.y * zval),
       -(struct.lattice.c * site.frac.z * zval)⟩ ∧
    ((∀ s ∈ struct.sites, (zd.lookup s.specie).isSome) →
      get_total_ionic_dipole struct zd =
        some (vecSum (struct.sites.map fun s =>
          calc_ionic s struct ((zd.lookup s.specie).getD 0)))) ∧
    ((∃ s ∈ struct.sites, zd.lookup s.specie = none) →
      get_total_ionic_dipole struct zd = none) := by
  refine ⟨?_, ?_, ?_⟩
  · unfold calc_ionic mulv smulv latLens
    exact Vec3.ext' (by ring) (by ring) (by ring)
  · intro h
    unfold get_total_ionic_dipole
    rw [collectIonic_all_some struct zd struct.sites h]
    rfl
  · intro h
    unfold get_total_ionic_dipole
    rw [collectIonic_missing struct zd struct.sites h]
    rfl

/-- Witness for C4: the formula and both lookup behaviors at a concrete
site, structure and ZVAL table. -/
theorem calc_ionic_total_dipole_spec_witness :
    calc_ionic siteW structW4 1 =
      ⟨-(structW4.lattice.a * siteW.frac.x * 1),
       -(structW4.lattice.b * siteW.frac.y * 1),
       -(structW4.lattice.c * siteW.frac.z * 1)⟩ ∧
    get_total_ionic_dipole structW4 zdW =
      some (vecSum (structW4.sites.map fun s =>
        calc_ionic s structW4 ((zdW.lookup s.specie).getD 0))) ∧
    get_total_ionic_dipole structW4 [] = none := by
  refine ⟨(calc_ionic_total_dipole_spec siteW structW4 1 zdW (by decide)).1, ?_, ?_⟩
  · exact (calc_ionic_total_dipole_spec siteW structW4 1 zdW (by decide)).2.1 (by decide)
  · exact (calc_ionic_total_dipole_spec siteW structW4 1 [] (by decide)).2.2 (by decide)

/-- C5: with conversion requested, `get_pelecs_and_pions` multiplies each
step's stored electronic and ionic dipole rows componentwise by that
structure's scalar `units[i] = (-1.6021766e-13 * 1e16) / volume[i]`; the
scale is nonzero, so dividing a converted row by it recovers the raw row
exactly; without conversion the stored values are returned unchanged. -/
theorem pelecs_pions_unit_conversion (T : Polarization) (hv : validTrack T)
    (i : ℕ) (hi : i < T.L) :
    (T.get_pelecs_and_pions true).1.getD i v0 =
      smulv (unitScale (stepStruct T i).lattice.vol) (T.p_elecs.getD i v0) ∧
    (T.get_pelecs_and_pions true).2.getD i v0 =
      smulv (unitScale (stepStruct T i).lattice.vol) (T.p_ions.getD i v0) ∧
    unitScale (stepStruct T i).lattice.vol =
      -16021766 / 10 ^ 20 * 10 ^ 16 / (stepStruct T i).lattice.vol ∧
    unitScale (stepStruct T i).lattice.vol ≠ 0 ∧
    smulv (1 / unitScale (stepStruct T i).lattice.vol)
      ((T.get_pelecs_and_pions true).1.getD i v0) = T.p_elecs.getD i v0 ∧
    smulv (1 / unitScale (stepStruct T i).lattice.vol)
      ((T.get_pelecs_and_pions true).2.getD i v0) = T.p_ions.getD i v0 ∧
    T.get_pelecs_and_pions false = (T.p_elecs, T.p_ions) := by
  obtain ⟨hlen1, hlen2, hval⟩ := hv
  have his : i < T.structures.length := by rw [← hlen2]; exact hi
  have hie : i < T.p_elecs.length := hi
  have hii : i < T.p_ions.length := by rw [← hlen1]; exact hi
  have hvali : (stepStruct T i).lattice.valid := hval _ (getD_mem _ _ _ his)
  have hvol : 0 < (stepStruct T i).lattice.vol := hvali.2.2.2.2.2.2.1
  have h1 : (T.get_pelecs_and_pions true).1.getD i v0 =
      smulv (unitScale (stepStruct T i).lattice.vol) (T.p_elecs.getD i v0) := by
    unfold Polarization.get_pelecs_and_pions
    rw [if_pos rfl]
    exact getD_zipWith _ _ _ i dStruct v0 v0 his hie
  have h2 : (T.get_pelecs_and_pions true).2.getD i v0 =
      smulv (unitScale (stepStruct T i).lattice.vol) (T.p_ions.getD i v0) := by
    unfold Polarization.get_pelecs_and_pions
    rw [if_pos rfl]
    exact getD_zipWith _ _ _ i dStruct v0 v0 his hii
  have hscale : unitScale (stepStruct T i).lattice.vol ≠ 0 := by
    unfold unitScale e_to_muC cm2_to_A2
    have hv0 : (stepStruct T i).lattice.vol ≠ 0 := ne_of_gt hvol
    have : (1 : ℚ) / (stepStruct T i).lattice.vol ≠ 0 := one_div_ne_zero hv0
    exact mul_ne_zero this (by norm_num)
  refine ⟨h1, h2, ?_, hscale, ?_, ?_, ?_⟩
  · unfold unitScale e_to_muC cm2_to_A2
    ring
  · rw [h1]
    exact Vec3.ext' (by simp only [smulv]; rw [one_div, inv_mul_cancel_left₀ hscale])
      (by simp only [smulv]; rw [one_div, inv_mul_cancel_left₀ hscale])
      (by simp only [smulv]; rw [one_div, inv_mul_cancel_left₀ hscale])
  · rw [h2]
    exact Vec3.ext' (by simp only [smulv]; rw [one_div, inv_mul_cancel_left₀ hscale])
      (by simp only [smulv]; rw [one_div, inv_mul_cancel_left₀ hscale])
      (by simp only [smulv]; rw [one_div, inv_mul_cancel_left₀ hscale])
  · unfold Polarization.get_pelecs_and_pions
    rw [if_neg (by simp)]

/-- Witness for C5 on a concrete one-step track. -/
theorem pelecs_pions_unit_conversion_witness :
    (trackW1.get_pelecs_and_pions true).1.getD 0 v0 =
      smulv (unitScale (stepStruct trackW1 0).lattice.vol) (trackW1.p_elecs.getD 0 v0) ∧
    (trackW1.get_pelecs_and_pions true).2.getD 0 v0 =
      smulv (unitScale (stepStruct trackW1 0).lattice.vol) (trackW1.p_ions.getD 0 v0) ∧
    unitScale (stepStruct trackW1 0).lattice.vol =
      -16021766 / 10 ^ 20 * 10 ^ 16 / (stepStruct trackW1 0).lattice.vol ∧
    unitScale (stepStruct trackW1 0).lattice.vol ≠ 0 ∧
    smulv (1 / unitScale (stepStruct trackW1 0).lattice.vol)
      ((trackW1.get_pelecs_and_pions true).1.getD 0 v0) = trackW1.p_elecs.getD 0 v0 ∧
    smulv (1 / unitScale (stepStruct trackW1 0).lattice.vol)
      ((trackW1.get_pelecs_and_pions true).2.getD 0 v0) = trackW1.p_ions.getD 0 v0 ∧
    trackW1.get_pelecs_and_pions false = (trackW1.p_elecs, trackW1.p_ions) :=
  pelecs_pions_unit_conversion trackW1 (by with_unfolding_all decide) 0 (by decide)

/-- C6: `get_lattice_quanta` returns one row per structure whose entry in
direction `d` is that structure's lattice length in direction `d`, rescaled
by the magnitude of that structure's own volume-derived unit factor when
conversion is requested, and every entry is non-negative in both unit
modes. -/
theorem lattice_quanta_spec (T : Polarization) (hv : validTrack T) (convert : Bool)
    (i : ℕ) (hi : i < T.structures.length) :
    (T.get_lattice_quanta convert).getD i v0 =
      smulv (if convert then |unitScale (stepStruct T i).lattice.vol| else 1)
        (latLens (stepStruct T i).lattice) ∧
    0 ≤ ((T.get_lattice_quanta convert).getD i v0).x ∧
    0 ≤ ((T.get_lattice_quanta convert).getD i v0).y ∧
    0 ≤ ((T.get_lattice_quanta convert).getD i v0).z := by
  have hvali : (stepStruct T i).lattice.valid := hv.2.2 _ (getD_mem _ _ _ hi)
  have hrow : (T.get_lattice_quanta convert).getD i v0 =
      smulv (if convert then |unitScale (stepStruct T i).lattice.vol| else 1)
        (latLens (stepStruct T i).lattice) := by
    unfold Polarization.get_lattice_quanta stepStruct
    rw [getD_map _ _ i dStruct v0 hi]
    cases convert with
    | false =>
      exact Vec3.ext' (by simp [latLens, smulv]) (by simp [latLens, smulv])
        (by simp [latLens, smulv])
    | true =>
      exact Vec3.ext' (by simp [latLens, smulv, rescaleLat])
        (by simp [latLens, smulv, rescaleLat]) (by simp [latLens, smulv, rescaleLat])
  have hfac : 0 ≤ (if convert then |unitScale (stepStruct T i).lattice.vol| else 1 : ℚ) := by
    cases convert with
    | false => norm_num
    | true => simp only [ite_true]; exact abs_nonneg (unitScale (stepStruct T i).lattice.vol)
  refine ⟨hrow, ?_, ?_, ?_⟩ <;> rw [hrow]
  · exact mul_nonneg hfac (le_of_lt hvali.1)
  · exact mul_nonneg hfac (le_of_lt hvali.2.2.1)
  · exact mul_nonneg hfac (le_of_lt hvali.2.2.2.2.1)

/-- Witness for C6 on a concrete track, converted units. -/
theorem lattice_quanta_spec_witness :
    (trackW1.get_lattice_quanta true).getD 0 v0 =
      smulv (if true then |unitScale (stepStruct trackW1 0).lattice.vol| else 1)
        (latLens (stepStruct trackW1 0).lattice) ∧
    0 ≤ ((trackW1.get_lattice_quanta true).getD 0 v0).x ∧
    0 ≤ ((trackW1.get_lattice_quanta true).getD 0 v0).y ∧
    0 ≤ ((trackW1.get_lattice_quanta true).getD 0 v0).z :=
  lattice_quanta_spec trackW1 (by with_unfolding_all decide) true 0 (by decide)

/-- C7: each of the three per-direction spline fits of
`same_branch_splines` is the independent application of the fitting
primitive to that direction's data alone, so a direction's result (and its
`max_spline_jumps` entry) depends only on the primitive's behavior on that
direction's column; `max_spline_jumps` is the unavailable marker exactly
for directions whose fit failed and otherwise the maximum over all steps of
(actual same-branch value minus spline prediction). -/
theorem spline_fit_independence (fit fit2 : SplineFit) (T : Polarization) (k : Fin 3)
    (hagree : fit (sbCol T k) = fit2 (sbCol T k)) :
    T.same_branch_splines fit k = fit (sbCol T k) ∧
    T.same_branch_splines fit k = T.same_branch_splines fit2 k ∧
    T.max_spline_jumps fit k = T.max_spline_jumps fit2 k ∧
    (T.same_branch_splines fit k = none → T.max_spline_jumps fit k = none) ∧
    ∀ sp, T.same_branch_splines fit k = some sp →
      T.max_spline_jumps fit k = some (maxOf (jumpList sp (sbCol T k))) ∧
      (∀ d ∈ jumpList sp (sbCol T k), d ≤ maxOf (jumpList sp (sbCol T k))) ∧
      (0 < T.L → maxOf (jumpList sp (sbCol T k)) ∈ jumpList sp (sbCol T k)) := by
  refine ⟨rfl, ?_, ?_, ?_, ?_⟩
  · unfold Polarization.same_branch_splines
    exact hagree
  · unfold Polarization.max_spline_jumps Polarization.same_branch_splines
    rw [hagree]
  · intro h
    unfold Polarization.max_spline_jumps
    rw [h]
    rfl
  · intro sp hsp
    refine ⟨?_, fun d hd => le_maxOf _ d hd, fun hL => ?_⟩
    · unfold Polarization.max_spline_jumps
      rw [hsp]
      rfl
    · refine maxOf_mem _ ?_
      have hlen : (jumpList sp (sbCol T k)).length = T.L := by
        simp [jumpList, sbCol, length_same_branch]
      intro hemp
      rw [hemp] at hlen
      simp at hlen
      omega

/-- Witness for C7: a primitive that succeeds on every column, applied to a
concrete track. -/
theorem spline_fit_independence_witness :
    trackW1.same_branch_splines fitW 0 = fitW (sbCol trackW1 0) ∧
    trackW1.same_branch_splines fitW 0 = trackW1.same_branch_splines fitW 0 ∧
    trackW1.max_spline_jumps fitW 0 = trackW1.max_spline_jumps fitW 0 ∧
    (trackW1.same_branch_splines fitW 0 = none → trackW1.max_spline_jumps fitW 0 = none) ∧
    ∀ sp, trackW1.same_branch_splines fitW 0 = some sp →
      trackW1.max_spline_jumps fitW 0 = some (maxOf (jumpList sp (sbCol trackW1 0))) ∧
      (∀ d ∈ jumpList sp (sbCol trackW1 0), d ≤ maxOf (jumpList sp (sbCol trackW1 0))) ∧
      (0 < trackW1.L → maxOf (jumpList sp (sbCol trackW1 0)) ∈ jumpList sp (sbCol trackW1 0)) :=
  spline_fit_independence fitW fitW trackW1 0 rfl

/-- C8: when the underlying quartic fit fails, `EnergyTrend.smoothness`
reports the soft unavailable outcome instead of propagating the fitting
error; when it succeeds, the result is the (squared) RMS deviation between
the energies and the fit, a non-negative number. -/
theorem energy_smoothness_soft_failure (efit : EFit) (et : EnergyTrend) :
    (∀ msg, efit et.energies = Except.error msg → et.smoothness_sq efit = none) ∧
    ∀ sp, efit et.energies = Except.ok sp →
      et.smoothness_sq efit = some (meanSqDev sp.eval et.energies) ∧
      0 ≤ meanSqDev sp.eval et.energies := by
  constructor
  · intro msg h
    unfold EnergyTrend.smoothness_sq EnergyTrend.spline
    rw [h]
  · intro sp h
    constructor
    · unfold EnergyTrend.smoothness_sq EnergyTrend.spline
      rw [h]
    · unfold meanSqDev
      refine div_nonneg (List.sum_nonneg ?_) (Nat.cast_nonneg _)
      intro q hq
      obtain ⟨j, _, rfl⟩ := List.mem_map.mp hq
      exact sq_nonneg _

/-- Witness for C8: a failing fit yields the soft unavailable outcome on a
concrete energies sequence. -/
theorem energy_smoothness_soft_failure_witness :
    etW.smoothness_sq efitW = none :=
  (energy_smoothness_soft_failure efitW etW).1 "Energy spline failed." rfl

/-- C10: constructing an `EnergyTrend` performs no validation and never
fails: any energies sequence (empty ones included) is accepted and stored
unchanged; a degenerate sequence only surfaces later, when an analysis
method invokes the fitting primitive and its failure is reported. -/
theorem energy_trend_unvalidated_construction (es : List ℚ) :
    (EnergyTrend.mk es).energies = es ∧
    (∀ efit msg, efit es = Except.error msg →
      (EnergyTrend.mk es).spline efit = Except.error msg) ∧
    (∀ efit msg, efit es = Except.error msg →
      (EnergyTrend.mk es).smoothness_sq efit = none) := by
  refine ⟨rfl, ?_, ?_⟩
  · intro efit msg h
    unfold EnergyTrend.spline
    exact h
  · intro efit msg h
    unfold EnergyTrend.smoothness_sq EnergyTrend.spline
    rw [h]

/-- Witness for C10: the empty energies sequence is accepted and stored;
the failure of a fitting primitive on it surfaces at `spline` time. -/
theorem energy_trend_unvalidated_construction_witness :
    (EnergyTrend.mk []).energies = ([] : List ℚ) ∧
    (EnergyTrend.mk []).spline efitW = Except.error "Energy spline failed." :=
  ⟨(energy_trend_unvalidated_construction []).1,
   (energy_trend_unvalidated_construction []).2.1 efitW "Energy spline failed." rfl⟩

/-- C9: every public method of `Polarization` and of `EnergyTrend`, in
state-passing form, returns the instance state unchanged, and a repeated
call of the same method with the same arguments on the returned state
yields the same result. -/
theorem methods_leave_state_unchanged (T : Polarization) (et : EnergyTrend)
    (fit : SplineFit) (efit : EFit) (convert : Bool) (slope_cutoff : ℚ) :
    (Polarization.get_pelecs_and_pions_run convert T).2 = T ∧
    (Polarization.get_same_branch_polarization_data_run convert T).2 = T ∧
    (Polarization.get_lattice_quanta_run convert T).2 = T ∧
    (Polarization.get_polarization_change_run T).2 = T ∧
    (Polarization.get_polarization_change_norm_sq_run T).2 = T ∧
    (Polarization.same_branch_splines_run fit T).2 = T ∧
    (Polarization.max_spline_jumps_run fit T).2 = T ∧
    (Polarization.smoothness_sq_run fit T).2 = T ∧
    (EnergyTrend.spline_run efit et).2 = et ∧
    (EnergyTrend.smoothness_sq_run efit et).2 = et ∧
    (EnergyTrend.max_spline_jump_run efit et).2 = et ∧
    (EnergyTrend.endpoints_minima_run efit slope_cutoff et).2 = et ∧
    (Polarization.get_pelecs_and_pions_run convert
      (Polarization.get_pelecs_and_pions_run convert T).2).1 =
      (Polarization.get_pelecs_and_pions_run convert T).1 ∧
    (Polarization.get_same_branch_polarization_data_run convert
      (Polarization.get_same_branch_polarization_data_run convert T).2).1 =
      (Polarization.get_same_branch_polarization_data_run convert T).1 ∧
    (Polarization.get_lattice_quanta_run convert
      (Polarization.get_lattice_quanta_run convert T).2).1 =
      (Polarization.get_lattice_quanta_run convert T).1 ∧
    (Polarization.get_polarization_change_run
      (Polarization.get_polarization_change_run T).2).1 =
      (Polarization.get_polarization_change_run T).1 ∧
    (Polarization.get_polarization_change_norm_sq_run
      (Polarization.get_polarization_change_norm_sq_run T).2).1 =
      (Polarization.get_polarization_change_norm_sq_run T).1 ∧
    (Polarization.same_branch_splines_run fit
      (Polarization.same_branch_splines_run fit T).2).1 =
      (Polarization.same_branch_splines_run fit T).1 ∧
    (Polarization.max_spline_jumps_run fit
      (Polarization.max_spline_jumps_run fit T).2).1 =
      (Polarization.max_spline_jumps_run fit T).1 ∧
    (Polarization.smoothness_sq_run fit
      (Polarization.smoothness_sq_run fit T).2).1 =
      (Polarization.smoothness_sq_run fit T).1 ∧
    (EnergyTrend.spline_run efit (EnergyTrend.spline_run efit et).2).1 =
      (EnergyTrend.spline_run efit et).1 ∧
    (EnergyTrend.smoothness_sq_run efit (EnergyTrend.smoothness_sq_run efit et).2).1 =
      (EnergyTrend.smoothness_sq_run efit et).1 ∧
    (EnergyTrend.max_spline_jump_run efit (EnergyTrend.max_spline_jump_run efit et).2).1 =
      (EnergyTrend.max_spline_jump_run efit et).1 ∧
    (EnergyTrend.endpoints_minima_run efit slope_cutoff
      (EnergyTrend.endpoints_minima_run efit slope_cutoff et).2).1 =
      (EnergyTrend.endpoints_minima_run efit slope_cutoff et).1 :=
  ⟨rfl, rfl, rfl, rfl, rfl, rfl, rfl, rfl, rfl, rfl, rfl, rfl,
   rfl, rfl, rfl, rfl, rfl, rfl, rfl, rfl, rfl, rfl, rfl, rfl⟩

theorem addv_rot_right (u w v : Vec3) : addv (addv u w) v = addv (addv u v) w :=
  Vec3.ext' (by simp [addv]; ring) (by simp [addv]; ring) (by simp [addv]; ring)

theorem addv_pull_right (u v w : Vec3) : addv u (addv v w) = addv (addv u v) w :=
  Vec3.ext' (by simp [addv]; ring) (by simp [addv]; ring) (by simp [addv]; ring)

theorem latLens_rescale (q : ℚ) (l : CLattice) :
    latLens (rescaleLat q l) = smulv |q| (latLens l) :=
  Vec3.ext' (by simp [latLens, rescaleLat, smulv]) (by simp [latLens, rescaleLat, smulv])
    (by simp [latLens, rescaleLat, smulv])

theorem fract_div_shift (p a : ℚ) (ha : a ≠ 0) (mi : ℤ) :
    Int.fract ((p + mi * a) / a) = Int.fract (p / a) := by
  have h : (p + mi * a) / a = p / a + mi := by
    rw [add_div, mul_div_cancel_right₀ _ ha]
  rw [h, Int.fract_add_int]

theorem fract_div_shift_scaled (u p a : ℚ) (hu : u < 0) (ha : 0 < a) (mi : ℤ) :
    Int.fract (u * (p + mi * a) / (|u| * a)) = Int.fract (u * p / (|u| * a)) := by
  have habs : |u| = -u := abs_of_neg hu
  have hune : u ≠ 0 := ne_of_lt hu
  have hane : a ≠ 0 := ne_of_gt ha
  have h1 : u * (p + mi * a) / (|u| * a) = u * p / (|u| * a) - mi := by
    rw [habs]
    field_simp
    ring
  rw [h1, Int.fract_sub_int]

theorem fract3_div_shift (pt lens : Vec3) (mm : IVec)
    (hx : lens.x ≠ 0) (hy : lens.y ≠ 0) (hz : lens.z ≠ 0) :
    fract3 (divv (addv pt (mulv ⟨mm.1, mm.2.1, mm.2.2⟩ lens)) lens) =
      fract3 (divv pt lens) := by
  refine Vec3.ext' ?_ ?_ ?_ <;> simp only [fract3, divv, addv, mulv]
  · exact fract_div_shift pt.x lens.x hx mm.1
  · exact fract_div_shift pt.y lens.y hy mm.2.1
  · exact fract_div_shift pt.z lens.z hz mm.2.2

theorem fract3_div_shift_scaled (u : ℚ) (pt lens : Vec3) (mm : IVec)
    (hu : u < 0) (hx : 0 < lens.x) (hy : 0 < lens.y) (hz : 0 < lens.z) :
    fract3 (divv (smulv u (addv pt (mulv ⟨mm.1, mm.2.1, mm.2.2⟩ lens))) (smulv |u| lens)) =
      fract3 (divv (smulv u pt) (smulv |u| lens)) := by
  refine Vec3.ext' ?_ ?_ ?_ <;> simp only [fract3, divv, addv, mulv, smulv]
  · exact fract_div_shift_scaled u pt.x lens.x hu hx mm.1
  · exact fract_div_shift_scaled u pt.y lens.y hu hy mm.2.1
  · exact fract_div_shift_scaled u pt.z lens.z hu hz mm.2.2

theorem unitScale_neg (vol : ℚ) (hvol : 0 < vol) : unitScale vol < 0 := by
  unfold unitScale e_to_muC cm2_to_A2
  have h1 : (0 : ℚ) < 1 / vol := by positivity
  have h2 : (-16021766 / 10 ^ 20 * 10 ^ 16 : ℚ) < 0 := by norm_num
  exact mul_neg_of_pos_of_neg h1 h2

/-- C1: adding an arbitrary integer multiple of the per-direction lattice
quantum (one raw lattice length per direction) to any single step's raw
electronic or ionic dipole leaves the whole output of
`get_same_branch_polarization_data` — in particular the shifted step's row
and every later row — unchanged, in both unit modes. -/
theorem quantum_shift_invariance (T : Polarization) (hv : validTrack T)
    (useElec : Bool) (convert : Bool) (j : ℕ) (hj : j < T.L) (m : IVec) :
    (quantumShift T useElec j m).get_same_branch_polarization_data convert =
      T.get_same_branch_polarization_data convert := by
  obtain ⟨hlen1, hlen2, hval⟩ := hv
  have hstr : (quantumShift T useElec j m).structures = T.structures := by
    cases useElec <;> simp [quantumShift]
  have hL : (quantumShift T useElec j m).L = T.L := by
    cases useElec <;> simp [Polarization.L, quantumShift, setAdd]
  have hss : ∀ i, stepStruct (quantumShift T useElec j m) i = stepStruct T i := by
    intro i
    unfold stepStruct
    rw [hstr]
  have hjs : j < T.structures.length := by rw [← hlen2]; exact hj
  have hvalj : (stepStruct T j).lattice.valid := hval _ (getD_mem _ _ _ hjs)
  have hpe : ∀ i, i ≠ j → ptotRaw (quantumShift T useElec j m) i = ptotRaw T i := by
    intro i hij
    cases useElec with
    | true =>
      unfold ptotRaw quantumShift setAdd
      simp only [if_pos, ite_true]
      rw [getD_set_ne _ _ _ _ _ (Ne.symm hij)]
    | false =>
      unfold ptotRaw quantumShift setAdd
      simp only [Bool.false_eq_true, ite_false]
      rw [getD_set_ne _ _ _ _ _ (Ne.symm hij)]
  have hpj : ptotRaw (quantumShift T useElec j m) j =
      addv (ptotRaw T j) (mulv ⟨m.1, m.2.1, m.2.2⟩ (rawQuantum T j)) := by
    cases useElec with
    | true =>
      unfold ptotRaw quantumShift setAdd
      simp only [if_pos, ite_true]
      rw [getD_set_self _ _ _ _ hj]
      exact addv_rot_right _ _ _
    | false =>
      unfold ptotRaw quantumShift setAdd
      simp only [Bool.false_eq_true, ite_false]
      rw [getD_set_self _ _ _ _ (by rw [← hlen1]; exact hj)]
      exact addv_pull_right _ _ _
  have hstep : ∀ i ∈ List.range T.L,
      StepEq (stepData (quantumShift T useElec j m) convert i) (stepData T convert i) := by
    intro i _
    have hlat : stepLat (quantumShift T useElec j m) convert i = stepLat T convert i := by
      unfold stepLat
      rw [hss]
    have hlens : stepLens (quantumShift T useElec j m) convert i = stepLens T convert i := by
      unfold stepLens
      rw [hlat]
    refine ⟨hlat, hlens, ?_⟩
    simp only [stepData]
    by_cases hij : i = j
    · subst hij
      cases convert with
      | false =>
        unfold stepF stepPt stepLens stepLat
        simp only [Bool.false_eq_true, ite_false]
        rw [hpj, hss]
        exact fract3_div_shift _ _ m (ne_of_gt hvalj.1) (ne_of_gt hvalj.2.2.1)
          (ne_of_gt hvalj.2.2.2.2.1)
      | true =>
        unfold stepF stepPt stepLens stepLat
        simp only [ite_true]
        rw [hpj, hss, latLens_rescale]
        exact fract3_div_shift_scaled _ _ _ m
          (unitScale_neg _ hvalj.2.2.2.2.2.2.1) hvalj.1 hvalj.2.2.1 hvalj.2.2.2.2.1
    · unfold stepF stepPt
      rw [hlens, hss, hpe i hij]
  unfold Polarization.get_same_branch_polarization_data
  rw [hL]
  exact branchRec_congr (forall2_map_of_mem StepEq (List.range T.L) _ _ hstep) v0

/-- Witness for C1: shifting the one-step track's electronic dipole by two
quanta along a and minus one along b leaves the reconstruction unchanged,
in converted units. -/
theorem quantum_shift_invariance_witness :
    (quantumShift trackW1 true 0 (2, -1, 0)).get_same_branch_polarization_data true =
      trackW1.get_same_branch_polarization_data true :=
  quantum_shift_invariance trackW1 (by with_unfolding_all decide) true true 0 (by decide)
    (2, -1, 0)

set_option maxRecDepth 100000 in
/-- C2 counterexample: a valid one-step track on an oblique lattice whose
raw total dipole is exactly one lattice quantum along direction a, for
which the first row of `get_same_branch_polarization_data` is not 0 along
a: the jointly nearest periodic image to the origin shifts the a-component
by a full quantum because the b basis vector has a large component along
a. -/
theorem endpoint_anchor_counterexample :
    validTrack cexPol ∧
    comp 0 (ptotRaw cexPol 0) = comp 0 (latLens (stepStruct cexPol 0).lattice) ∧
    comp 0 ((cexPol.get_same_branch_polarization_data false).getD 0 v0) ≠ 0 := by
  refine ⟨by with_unfolding_all decide, by with_unfolding_all decide, ?_⟩
  with_unfolding_all decide

theorem mem_candidates (a b c : ℤ) :
    (a, b, c) ∈ candidates ↔ a ∈ window ∧ b ∈ window ∧ c ∈ window := by
  constructor
  · intro h
    simp only [candidates, List.mem_flatMap, List.mem_map] at h
    obtain ⟨i, hi, j, hj, k, hk, heq⟩ := h
    cases heq
    exact ⟨hi, hj, hk⟩
  · rintro ⟨h1, h2, h3⟩
    simp only [candidates, List.mem_flatMap, List.mem_map]
    exact ⟨a, h1, b, h2, c, h3, rfl⟩

theorem imageKey_diag (l : CLattice) (hd : diagBasis l) (f0 : Vec3) (n : IVec) :
    imageKey l v0 f0 n =
      ((f0.x + n.1) * l.a) ^ 2 + ((f0.y + n.2.1) * l.b) ^ 2 + ((f0.z + n.2.2) * l.c) ^ 2 := by
  obtain ⟨ha, hb, hc⟩ := hd
  simp only [imageKey, dist2, cartL, addIV, dotv, subv, addv, smulv, v0, ha, hb, hc]
  ring

theorem sq_cast_mul_pos (mi : ℤ) (a : ℚ) (hm : mi ≠ 0) (ha : 0 < a) :
    0 < ((mi : ℚ) * a) ^ 2 := by
  have h1 : (mi : ℚ) ≠ 0 := Int.cast_ne_zero.mpr hm
  have h2 : (mi : ℚ) * a ≠ 0 := mul_ne_zero h1 (ne_of_gt ha)
  exact lt_of_le_of_ne (sq_nonneg _) (Ne.symm (pow_ne_zero 2 h2))

theorem argmin_diag_x (l : CLattice) (hd : diagBasis l) (hval : l.valid) (f0 : Vec3)
    (hx : f0.x = 0) :
    (argminKey (imageKey l v0 f0) iv0 candidates).1 = 0 := by
  by_contra hne
  have hmem := argminKey_mem (imageKey l v0 f0) candidates iv0
  rcases List.mem_cons.mp hmem with hcase | hcase
  · rw [hcase] at hne
    exact hne rfl
  · set nstar := argminKey (imageKey l v0 f0) iv0 candidates with hdef
    have hw := (mem_candidates nstar.1 nstar.2.1 nstar.2.2).mp hcase
    have hmem2 : ((0 : ℤ), nstar.2.1, nstar.2.2) ∈ candidates :=
      (mem_candidates 0 nstar.2.1 nstar.2.2).mpr ⟨by decide, hw.2.1, hw.2.2⟩
    have hge := argminKey_le_mem (imageKey l v0 f0) candidates iv0 _ hmem2
    have hkn : imageKey l v0 f0 nstar =
        ((nstar.1 : ℚ) * l.a) ^ 2 + ((f0.y + nstar.2.1) * l.b) ^ 2 +
          ((f0.z + nstar.2.2) * l.c) ^ 2 := by
      rw [imageKey_diag l ⟨hd.1, hd.2.1, hd.2.2⟩, hx]
      ring
    have hkn2 : imageKey l v0 f0 ((0 : ℤ), nstar.2.1, nstar.2.2) =
        ((f0.y + nstar.2.1) * l.b) ^ 2 + ((f0.z + nstar.2.2) * l.c) ^ 2 := by
      rw [imageKey_diag l ⟨hd.1, hd.2.1, hd.2.2⟩, hx]
      push_cast
      ring
    have hpos : 0 < ((nstar.1 : ℚ) * l.a) ^ 2 := sq_cast_mul_pos nstar.1 l.a hne hval.1
    rw [hkn, hkn2] at hge
    linarith

theorem argmin_diag_y (l : CLattice) (hd : diagBasis l) (hval : l.valid) (f0 : Vec3)
    (hy : f0.y = 0) :
    (argminKey (imageKey l v0 f0) iv0 candidates).2.1 = 0 := by
  by_contra hne
  have hmem := argminKey_mem (imageKey l v0 f0) candidates iv0
  rcases List.mem_cons.mp hmem with hcase | hcase
  · rw [hcase] at hne
    exact hne rfl
  · set nstar := argminKey (imageKey l v0 f0) iv0 candidates with hdef
    have hw := (mem_candidates nstar.1 nstar.2.1 nstar.2.2).mp hcase
    have hmem2 : (nstar.1, (0 : ℤ), nstar.2.2) ∈ candidates :=
      (mem_candidates nstar.1 0 nstar.2.2).mpr ⟨hw.1, by decide, hw.2.2⟩
    have hge := argminKey_le_mem (imageKey l v0 f0) candidates iv0 _ hmem2
    have hkn : imageKey l v0 f0 nstar =
        ((f0.x + nstar.1) * l.a) ^ 2 + ((nstar.2.1 : ℚ) * l.b) ^ 2 +
          ((f0.z + nstar.2.2) * l.c) ^ 2 := by
      rw [imageKey_diag l ⟨hd.1, hd.2.1, hd.2.2⟩, hy]
      ring
    have hkn2 : imageKey l v0 f0 (nstar.1, (0 : ℤ), nstar.2.2) =
        ((f0.x + nstar.1) * l.a) ^ 2 + ((f0.z + nstar.2.2) * l.c) ^ 2 := by
      rw [imageKey_diag l ⟨hd.1, hd.2.1, hd.2.2⟩, hy]
      push_cast
      ring
    have hpos : 0 < ((nstar.2.1 : ℚ) * l.b) ^ 2 := sq_cast_mul_pos nstar.2.1 l.b hne hval.2.2.1
    rw [hkn, hkn2] at hge
    linarith

theorem argmin_diag_z (l : CLattice) (hd : diagBasis l) (hval : l.valid) (f0 : Vec3)
    (hz : f0.z = 0) :
    (argminKey (imageKey l v0 f0) iv0 candidates).2.2 = 0 := by
  by_contra hne
  have hmem := argminKey_mem (imageKey l v0 f0) candidates iv0
  rcases List.mem_cons.mp hmem with hcase | hcase
  · rw [hcase] at hne
    exact hne rfl
  · set nstar := argminKey (imageKey l v0 f0) iv0 candidates with hdef
    have hw := (mem_candidates nstar.1 nstar.2.1 nstar.2.2).mp hcase
    have hmem2 : (nstar.1, nstar.2.1, (0 : ℤ)) ∈ candidates :=
      (mem_candidates nstar.1 nstar.2.1 0).mpr ⟨hw.1, hw.2.1, by decide⟩
    have hge := argminKey_le_mem (imageKey l v0 f0) candidates iv0 _ hmem2
    have hkn : imageKey l v0 f0 nstar =
        ((f0.x + nstar.1) * l.a) ^ 2 + ((f0.y + nstar.2.1) * l.b) ^ 2 +
          ((nstar.2.2 : ℚ) * l.c) ^ 2 := by
      rw [imageKey_diag l ⟨hd.1, hd.2.1, hd.2.2⟩, hz]
      ring
    have hkn2 : imageKey l v0 f0 (nstar.1, nstar.2.1, (0 : ℤ)) =
        ((f0.x + nstar.1) * l.a) ^ 2 + ((f0.y + nstar.2.1) * l.b) ^ 2 := by
      rw [imageKey_diag l ⟨hd.1, hd.2.1, hd.2.2⟩, hz]
      push_cast
      ring
    have hpos : 0 < ((nstar.2.2 : ℚ) * l.c) ^ 2 :=
      sq_cast_mul_pos nstar.2.2 l.c hne hval.2.2.2.2.1
    rw [hkn, hkn2] at hge
    linarith

theorem same_branch_head (T : Polarization) (convert : Bool) (hL : 0 < T.L) :
    (T.get_same_branch_polarization_data convert).getD 0 v0 =
      mulv (nearestImage (stepLat T convert 0) v0 (stepF T convert 0))
        (stepLens T convert 0) := by
  unfold Polarization.get_same_branch_polarization_data
  obtain ⟨k, hk⟩ : ∃ k, T.L = k + 1 := ⟨T.L - 1, (Nat.succ_pred_eq_of_pos hL).symm⟩
  rw [hk, List.range_succ_eq_map]
  simp [branchRec, stepData]

/-- C2 (amended): branch selection at step 0 uses the origin (0,0,0) as the
matching reference — the first row is the period image of the first step's
fractional polarization nearest to the Cartesian origin — and, for a track
whose first structure's lattice basis is orthogonal (diagonal, axis-aligned
basis rows), a first-step raw total dipole of exactly one lattice quantum
in some direction gives 0, not the quantum, in that direction of the first
row.  For oblique lattices the zero-folding consequence fails, because the
nearest-image search minimizes the joint three-dimensional real-space
distance. -/
theorem endpoint_anchor_orthogonal (T : Polarization) (hv : validTrack T) (hL : 0 < T.L)
    (hd : diagBasis (stepStruct T 0).lattice) (d : Fin 3)
    (hq : comp d (ptotRaw T 0) = comp d (latLens (stepStruct T 0).lattice)) :
    (T.get_same_branch_polarization_data false).getD 0 v0 =
      mulv (nearestImage (stepLat T false 0) v0 (stepF T false 0)) (stepLens T false 0) ∧
    comp d ((T.get_same_branch_polarization_data false).getD 0 v0) = 0 := by
  have hhead := same_branch_head T false hL
  refine ⟨hhead, ?_⟩
  rw [hhead]
  have h0s : 0 < T.structures.length := by rw [← hv.2.1]; exact hL
  have hval0 : (stepStruct T 0).lattice.valid := hv.2.2 _ (getD_mem _ _ _ h0s)
  have hlat0 : stepLat T false 0 = (stepStruct T 0).lattice := by
    unfold stepLat
    simp
  have hlens0 : stepLens T false 0 = latLens (stepStruct T 0).lattice := by
    unfold stepLens
    rw [hlat0]
  have hstepF : stepF T false 0 = divv (ptotRaw T 0) (latLens (stepStruct T 0).lattice) := by
    unfold stepF stepPt
    rw [hlens0]
    simp
  have hd0 : diagBasis (stepLat T false 0) := by rw [hlat0]; exact hd
  have hval0' : (stepLat T false 0).valid := by rw [hlat0]; exact hval0
  fin_cases d
  · have hpx : (ptotRaw T 0).x = (stepStruct T 0).lattice.a := hq
    have hfx : (fract3 (stepF T false 0)).x = 0 := by
      simp only [fract3]
      rw [hstepF]
      simp only [divv, latLens]
      rw [hpx, div_self (ne_of_gt hval0.1)]
      simp [Int.fract]
    have hns := argmin_diag_x (stepLat T false 0) hd0 hval0' (fract3 (stepF T false 0)) hfx
    show (mulv (nearestImage (stepLat T false 0) v0 (stepF T false 0)) (stepLens T false 0)).x = 0
    unfold nearestImage
    simp only [mulv, addIV]
    rw [hfx, hns]
    norm_num
  · have hpy : (ptotRaw T 0).y = (stepStruct T 0).lattice.b := hq
    have hfy : (fract3 (stepF T false 0)).y = 0 := by
      simp only [fract3]
      rw [hstepF]
      simp only [divv, latLens]
      rw [hpy, div_self (ne_of_gt hval0.2.2.1)]
      simp [Int.fract]
    have hns := argmin_diag_y (stepLat T false 0) hd0 hval0' (fract3 (stepF T false 0)) hfy
    show (mulv (nearestImage (stepLat T false 0) v0 (stepF T false 0)) (stepLens T false 0)).y = 0
    unfold nearestImage
    simp only [mulv, addIV]
    rw [hfy, hns]
    norm_num
  · have hpz : (ptotRaw T 0).z = (stepStruct T 0).lattice.c := hq
    have hfz : (fract3 (stepF T false 0)).z = 0 := by
      simp only [fract3]
      rw [hstepF]
      simp only [divv, latLens]
      rw [hpz, div_self (ne_of_gt hval0.2.2.2.2.1)]
      simp [Int.fract]
    have hns := argmin_diag_z (stepLat T false 0) hd0 hval0' (fract3 (stepF T false 0)) hfz
    show (mulv (nearestImage (stepLat T false 0) v0 (stepF T false 0)) (stepLens T false 0)).z = 0
    unfold nearestImage
    simp only [mulv, addIV]
    rw [hfz, hns]
    norm_num

set_option maxRecDepth 100000 in
/-- Witness for the amended C2: a cubic one-step track whose raw total
dipole is exactly one quantum along a folds to 0 along a. -/
theorem endpoint_anchor_orthogonal_witness :
    (trackW2.get_same_branch_polarization_data false).getD 0 v0 =
      mulv (nearestImage (stepLat trackW2 false 0) v0 (stepF trackW2 false 0))
        (stepLens trackW2 false 0) ∧
    comp 0 ((trackW2.get_same_branch_polarization_data false).getD 0 v0) = 0 :=
  endpoint_anchor_orthogonal trackW2 (by with_unfolding_all decide) (by decide)
    (by with_unfolding_all decide) 0 (by with_unfolding_all decide)
